import Mathlib

/-!
Shallow embedding of the hivemind-platform coordination core
(src/server: TaskEngine, SyncEngine, SkillRegistry, AgentManager)
together with proofs of the specification's testable properties.

Modelling conventions:
* A JavaScript `Map` is an association list `List (String × α)` kept in
  insertion order; `mapGet?` is `Map.get` and `mapSet` is `Map.set`
  (update in place for an existing key, append for a new one).
* A JavaScript `Set` is a duplicate-free `List String` in insertion order;
  `setAdd` is `Set.add`.
* JavaScript numbers that take part in arithmetic (bid scores, stats,
  leaderboard scores) are modelled as exact rationals `ℚ`; wall-clock
  timestamps (`Date.now()`) are `Int` values passed explicitly.
* Nondeterministic inputs of the source (`uuid`, `Math.random` suffixes,
  `Date.now()`) become explicit parameters.
* A method that mutates `this` is embedded as a function
  `State → result × State`; methods that only read return the state
  unchanged, mirroring the absence of mutation in the source.
-/

/-- JavaScript `Map.get`, on an insertion-ordered association list. -/
def mapGet? {α : Type} : List (String × α) → String → Option α
  | [], _ => none
  | (k, v) :: rest, key => if k = key then some v else mapGet? rest key

/-- JavaScript `Map.set`: overwrite in place when the key exists, append otherwise. -/
def mapSet {α : Type} : List (String × α) → String → α → List (String × α)
  | [], key, v => [(key, v)]
  | (k, w) :: rest, key, v =>
      if k = key then (key, v) :: rest else (k, w) :: mapSet rest key v

/-- JavaScript `Set.add`, on a duplicate-free insertion-ordered list. -/
def setAdd (s : List String) (x : String) : List String :=
  if x ∈ s then s else s ++ [x]

@[simp] theorem mapGet?_nil {α : Type} (key : String) :
    mapGet? ([] : List (String × α)) key = none := rfl

@[simp] theorem mapGet?_cons {α : Type} (k key : String) (v : α) (rest : List (String × α)) :
    mapGet? ((k, v) :: rest) key = if k = key then some v else mapGet? rest key := rfl

theorem mapGet?_set_self {α : Type} (m : List (String × α)) (key : String) (v : α) :
    mapGet? (mapSet m key v) key = some v := by
  induction m with
  | nil => simp [mapSet]
  | cons hd tl ih =>
      obtain ⟨k, w⟩ := hd
      by_cases h : k = key
      · simp [mapSet, h]
      · simp [mapSet, h, ih]

theorem mapGet?_set_ne {α : Type} (m : List (String × α)) (key key' : String) (v : α)
    (h : key ≠ key') : mapGet? (mapSet m key v) key' = mapGet? m key' := by
  induction m with
  | nil => simp [mapSet, h]
  | cons hd tl ih =>
      obtain ⟨k, w⟩ := hd
      by_cases hk : k = key
      · subst hk
        simp [mapSet, h]
      · simp [mapSet, hk, ih]

/-- Stable insertion sort, descending by `key`; this is the result of JavaScript
`array.sort((a, b) => key(b) - key(a))`, whose sort is required to be stable:
descending scores, equal scores kept in original order. -/
def insertDesc {α : Type} (key : α → ℚ) (x : α) : List α → List α
  | [] => [x]
  | y :: rest => if key y ≤ key x then x :: y :: rest else y :: insertDesc key x rest

/-- Stable descending sort by `key` (see `insertDesc`). -/
def stableSortDesc {α : Type} (key : α → ℚ) : List α → List α
  | [] => []
  | x :: rest => insertDesc key x (stableSortDesc key rest)

/-- The first element of maximal key, ties resolved to the earlier element. -/
def firstMax {α : Type} (key : α → ℚ) : List α → Option α
  | [] => none
  | x :: rest =>
      match firstMax key rest with
      | none => some x
      | some m => if key x < key m then some m else some x

theorem insertDesc_ne_nil {α : Type} (key : α → ℚ) (x : α) (l : List α) :
    insertDesc key x l ≠ [] := by
  cases l with
  | nil => simp [insertDesc]
  | cons y rest =>
      by_cases h : key y ≤ key x <;> simp [insertDesc, h]

theorem stableSortDesc_eq_nil {α : Type} (key : α → ℚ) (l : List α) :
    stableSortDesc key l = [] ↔ l = [] := by
  cases l with
  | nil => simp [stableSortDesc]
  | cons x rest =>
      simp only [stableSortDesc]
      constructor
      · intro h
        exact absurd h (insertDesc_ne_nil key x _)
      · intro h
        exact absurd h (by simp)

theorem head?_insertDesc {α : Type} (key : α → ℚ) (x : α) (l : List α) :
    (insertDesc key x l).head? =
      match l.head? with
      | none => some x
      | some y => if key y ≤ key x then some x else some y := by
  cases l with
  | nil => simp [insertDesc]
  | cons y rest =>
      by_cases h : key y ≤ key x <;> simp [insertDesc, h]

theorem head?_stableSortDesc {α : Type} (key : α → ℚ) (l : List α) :
    (stableSortDesc key l).head? = firstMax key l := by
  induction l with
  | nil => simp [stableSortDesc, firstMax]
  | cons x rest ih =>
      simp only [stableSortDesc, firstMax, head?_insertDesc, ih]
      cases hfm : firstMax key rest with
      | none =>
          have : rest = [] := by
            cases rest with
            | nil => rfl
            | cons z zs =>
                simp only [firstMax] at hfm
                cases h2 : firstMax key zs with
                | none => rw [h2] at hfm; simp at hfm
                | some m =>
                    rw [h2] at hfm
                    by_cases h : key z < key m <;> simp [h] at hfm
          subst this
          simp [stableSortDesc]
      | some m =>
          have hne : rest ≠ [] := by
            intro h
            subst h
            simp [firstMax] at hfm
          have hsne : stableSortDesc key rest ≠ [] := by
            simpa [stableSortDesc_eq_nil] using hne
          cases hs : stableSortDesc key rest with
          | nil => exact absurd hs hsne
          | cons z zs =>
              have : (stableSortDesc key rest).head? = some z := by simp [hs]
              rw [ih] at this
              rw [hfm] at this
              cases this
              by_cases h : key m ≤ key x
              · have : ¬ key x < key m := not_lt.mpr h
                simp [h, this]
              · have : key x < key m := lt_of_not_le h
                simp [h, this]

theorem perm_insertDesc {α : Type} (key : α → ℚ) (x : α) (l : List α) :
    List.Perm (insertDesc key x l) (x :: l) := by
  induction l with
  | nil => simp [insertDesc]
  | cons y rest ih =>
      by_cases h : key y ≤ key x
      · simp [insertDesc, h]
      · simp only [insertDesc, h, if_false]
        exact List.Perm.trans (List.Perm.cons y ih) (List.Perm.swap x y rest)

theorem perm_stableSortDesc {α : Type} (key : α → ℚ) (l : List α) :
    List.Perm (stableSortDesc key l) l := by
  induction l with
  | nil => simp [stableSortDesc]
  | cons x rest ih =>
      exact List.Perm.trans (perm_insertDesc key x _) (List.Perm.cons x ih)

theorem mem_insertDesc {α : Type} (key : α → ℚ) (x a : α) (l : List α) :
    a ∈ insertDesc key x l ↔ a = x ∨ a ∈ l := by
  rw [(perm_insertDesc key x l).mem_iff]
  simp

theorem pairwise_insertDesc {α : Type} (key : α → ℚ) (x : α) (l : List α)
    (h : l.Pairwise (fun a b => key b ≤ key a)) :
    (insertDesc key x l).Pairwise (fun a b => key b ≤ key a) := by
  induction l with
  | nil => simp [insertDesc]
  | cons y rest ih =>
      rw [List.pairwise_cons] at h
      obtain ⟨hy, hrest⟩ := h
      by_cases hxy : key y ≤ key x
      · simp only [insertDesc, hxy, if_true]
        refine List.Pairwise.cons ?_ (List.Pairwise.cons hy hrest)
        intro z hz
        rcases List.mem_cons.mp hz with rfl | hz'
        · exact hxy
        · exact le_trans (hy z hz') hxy
      · simp only [insertDesc, hxy, if_false]
        refine List.Pairwise.cons ?_ (ih hrest)
        intro z hz
        rcases (mem_insertDesc key x z rest).mp hz with rfl | hz'
        · exact le_of_lt (lt_of_not_le hxy)
        · exact hy z hz'

theorem pairwise_stableSortDesc {α : Type} (key : α → ℚ) (l : List α) :
    (stableSortDesc key l).Pairwise (fun a b => key b ≤ key a) := by
  induction l with
  | nil => simp [stableSortDesc]
  | cons x rest ih => exact pairwise_insertDesc key x _ ih

theorem filter_insertDesc {α : Type} (key : α → ℚ) (s : ℚ) (x : α) (l : List α) :
    (insertDesc key x l).filter (fun a => decide (key a = s)) =
      if key x = s then x :: l.filter (fun a => decide (key a = s))
      else l.filter (fun a => decide (key a = s)) := by
  induction l with
  | nil =>
      by_cases h : key x = s <;> simp [insertDesc, List.filter, h]
  | cons y rest ih =>
      simp only [insertDesc]
      by_cases hxy : key y ≤ key x
      · rw [if_pos hxy]
        by_cases h : key x = s <;> simp [List.filter, h]
      · rw [if_neg hxy]
        have hlt : key x < key y := lt_of_not_le hxy
        by_cases h : key x = s
        · have hy : ¬ key y = s := by
            intro hys
            rw [h] at hlt
            rw [hys] at hlt
            exact lt_irrefl s hlt
          simp [List.filter, h, hy, ih]
        · by_cases hy : key y = s <;>
            simp [List.filter, h, hy, ih]

theorem filter_stableSortDesc {α : Type} (key : α → ℚ) (s : ℚ) (l : List α) :
    (stableSortDesc key l).filter (fun a => decide (key a = s)) =
      l.filter (fun a => decide (key a = s)) := by
  induction l with
  | nil => simp [stableSortDesc]
  | cons x rest ih =>
      by_cases h : key x = s <;>
        simp [stableSortDesc, filter_insertDesc, h, List.filter, ih]

theorem firstMax_decomp {α : Type} (key : α → ℚ) (l : List α) (m : α)
    (h : firstMax key l = some m) :
    ∃ pre post, l = pre ++ m :: post ∧ (∀ x ∈ pre, key x < key m) ∧
      ∀ x ∈ l, key x ≤ key m := by
  induction l generalizing m with
  | nil => simp [firstMax] at h
  | cons x rest ih =>
      simp only [firstMax] at h
      cases h2 : firstMax key rest with
      | none =>
          rw [h2] at h
          have hrest : rest = [] := by
            cases rest with
            | nil => rfl
            | cons z zs =>
                simp only [firstMax] at h2
                cases h3 : firstMax key zs with
                | none => rw [h3] at h2; simp at h2
                | some m2 =>
                    rw [h3] at h2
                    by_cases hz : key z < key m2 <;> simp [hz] at h2
          subst hrest
          simp only [Option.some.injEq] at h
          subst h
          exact ⟨[], [], by simp, by simp, by simp⟩
      | some m2 =>
          rw [h2] at h
          obtain ⟨pre, post, hsplit, hpre, hall⟩ := ih m2 h2
          by_cases hx : key x < key m2
          · simp only [hx, if_true, Option.some.injEq] at h
            subst h
            refine ⟨x :: pre, post, by simp [hsplit], ?_, ?_⟩
            · intro z hz
              rcases List.mem_cons.mp hz with rfl | hz'
              · exact hx
              · exact hpre z hz'
            · intro z hz
              rcases List.mem_cons.mp hz with rfl | hz'
              · exact le_of_lt hx
              · exact hall z hz'
          · simp only [hx, if_false, Option.some.injEq] at h
            subst h
            refine ⟨[], rest, by simp, by simp, ?_⟩
            intro z hz
            rcases List.mem_cons.mp hz with rfl | hz'
            · exact le_refl _
            · exact le_trans (hall z hz') (not_lt.mp hx)

namespace Hive

/-- JavaScript truthiness of a nullable string: `null`/absent and `""` are falsy. -/
def strTruthy : Option String → Bool
  | none => false
  | some s => s != ""

/-- One bid on a task: `{ agentId, score, ts }` as pushed by `TaskEngine.bid`. -/
structure Bid where
  agentId : String
  score : ℚ
  ts : Int
deriving DecidableEq, Repr

/-- A task record as built by `TaskEngine.createTask`
(src/server/demo-agents.js, full-lifecycle `TaskEngine`). -/
structure Task where
  id : String
  title : String
  description : String
  priority : String
  projectId : Option String
  status : String
  createdBy : Option String
  createdAt : Int
  updatedAt : Int
  bids : List Bid
  assignedTo : Option String
  completedBy : Option String
  completedAt : Option Int
  result : Option String
  tags : List String
deriving DecidableEq, Repr

/-- The `TaskEngine` state: `this.tasks`, a `Map` from task id to task.
The `database` collaborator only receives `saveTask` copies and never
feeds back into the in-memory transitions, so it is not modelled. -/
structure TaskEngine where
  tasks : List (String × Task)
deriving DecidableEq, Repr

/-- `TaskEngine.createTask`; the `uuid` and `Date.now()` are explicit inputs. -/
def TaskEngine.createTask (e : TaskEngine) (id title description priority : String)
    (projectId createdBy : Option String) (tags : List String) (now : Int) :
    Task × TaskEngine :=
  let task : Task := {
    id := id, title := title, description := description, priority := priority,
    projectId := projectId, status := "open", createdBy := createdBy,
    createdAt := now, updatedAt := now, bids := [], assignedTo := none,
    completedBy := none, completedAt := none, result := none, tags := tags }
  (task, { e with tasks := mapSet e.tasks id task })

/-- `TaskEngine.bid(taskId, agentId, score)`: rejected (`null`) unless the task
exists and `task.status === 'open'`; otherwise the bid is pushed onto
`task.bids` and the task returned. -/
def TaskEngine.bid (e : TaskEngine) (taskId agentId : String) (score : ℚ) (now : Int) :
    Option Task × TaskEngine :=
  match mapGet? e.tasks taskId with
  | none => (none, e)
  | some task =>
      if task.status ≠ "open" then (none, e)
      else
        let t : Task := { task with bids := task.bids ++ [⟨agentId, score, now⟩] }
        (some t, { e with tasks := mapSet e.tasks taskId t })

/-- Auction branch of `TaskEngine.assign`: the source checks
`task.bids.length > 0`, sorts `task.bids` in place with the stable comparator
`(a, b) => b.score - a.score` and assigns `task.bids[0].agentId`. Here the
sorted list is matched directly; it is empty exactly when `task.bids` is
(`stableSortDesc_eq_nil`). -/
def auctionAssign (task : Task) : Option Task :=
  match stableSortDesc Bid.score task.bids with
  | [] => none
  | best :: rest =>
      some { task with bids := best :: rest, assignedTo := some best.agentId }

/-- `TaskEngine.assign(taskId, agentId)`: direct assignment when `agentId` is
truthy, otherwise highest-score bid; fails (`null`) with no bids. Both success
paths set `status = 'assigned'` and stamp `updatedAt`. -/
def TaskEngine.assign (e : TaskEngine) (taskId : String) (agentId : Option String)
    (now : Int) : Option Task × TaskEngine :=
  match mapGet? e.tasks taskId with
  | none => (none, e)
  | some task =>
      let step1 : Option Task :=
        if strTruthy agentId then some { task with assignedTo := agentId }
        else auctionAssign task
      match step1 with
      | none => (none, e)
      | some t1 =>
          let t2 : Task := { t1 with status := "assigned", updatedAt := now }
          (some t2, { e with tasks := mapSet e.tasks taskId t2 })

/-- `TaskEngine.startTask(taskId, agentId)`: rejected when the task has a
truthy assignee different from the caller; otherwise binds the caller and
moves the task to `'in-progress'`. -/
def TaskEngine.startTask (e : TaskEngine) (taskId agentId : String) (now : Int) :
    Option Task × TaskEngine :=
  match mapGet? e.tasks taskId with
  | none => (none, e)
  | some task =>
      let hijack : Bool :=
        match task.assignedTo with
        | none => false
        | some a => a != "" && a != agentId
      if hijack then (none, e)
      else
        let t : Task := { task with
          status := "in-progress", assignedTo := some agentId, updatedAt := now }
        (some t, { e with tasks := mapSet e.tasks taskId t })

/-- `TaskEngine.completeTask(taskId, agentId, result)`: permitted on any
existing task regardless of status. -/
def TaskEngine.completeTask (e : TaskEngine) (taskId agentId : String)
    (result : String) (now : Int) : Option Task × TaskEngine :=
  match mapGet? e.tasks taskId with
  | none => (none, e)
  | some task =>
      let t : Task := { task with
        status := "completed", completedBy := some agentId,
        completedAt := some now, updatedAt := now, result := some result }
      (some t, { e with tasks := mapSet e.tasks taskId t })

/-- `TaskEngine.failTask(taskId, agentId, reason)`: permitted on any existing
task regardless of status. -/
def TaskEngine.failTask (e : TaskEngine) (taskId agentId : String)
    (reason : String) (now : Int) : Option Task × TaskEngine :=
  match mapGet? e.tasks taskId with
  | none => (none, e)
  | some task =>
      let t : Task := { task with
        status := "failed", completedBy := some agentId,
        completedAt := some now, updatedAt := now, result := some reason }
      (some t, { e with tasks := mapSet e.tasks taskId t })

end Hive

theorem mapGet?_set {α : Type} (m : List (String × α)) (k k' : String) (v : α) :
    mapGet? (mapSet m k v) k' = if k = k' then some v else mapGet? m k' := by
  by_cases h : k = k'
  · subst h
    simp [mapGet?_set_self]
  · simp [h, mapGet?_set_ne m k k' v h]

namespace Hive

/-- Status of the task stored under `tid`, if any. -/
def statusAt (e : TaskEngine) (tid : String) : Option String :=
  (mapGet? e.tasks tid).map Task.status

/-- The task produced by a successful bid: the new bid pushed at the end. -/
def bidPushed (t : Task) (agentId : String) (score : ℚ) (now : Int) : Task :=
  { t with bids := t.bids ++ [⟨agentId, score, now⟩] }

/-- C1: for every task and every bid call, the bid is accepted (appended to the
task's bid list, task returned, store updated) iff the task exists and its
status is exactly `"open"` at call time; on any other status (`"assigned"`,
`"in-progress"`, `"completed"`, `"failed"`, or anything else) and on an unknown
task the call returns `none` and the whole engine state — in particular the
task's bid list — is unchanged. -/
theorem bid_accepted_iff_open (e : TaskEngine) (taskId agentId : String)
    (score : ℚ) (now : Int) :
    ((e.bid taskId agentId score now).1.isSome ↔
        ∃ t, mapGet? e.tasks taskId = some t ∧ t.status = "open") ∧
    (mapGet? e.tasks taskId = none → e.bid taskId agentId score now = (none, e)) ∧
    (∀ t, mapGet? e.tasks taskId = some t → t.status ≠ "open" →
        e.bid taskId agentId score now = (none, e)) ∧
    (∀ t, mapGet? e.tasks taskId = some t → t.status = "open" →
        e.bid taskId agentId score now =
          (some (bidPushed t agentId score now),
           { e with tasks := mapSet e.tasks taskId (bidPushed t agentId score now) })) := by
  cases h : mapGet? e.tasks taskId with
  | none =>
      refine ⟨⟨fun hs => ?_, fun ⟨t, ht, _⟩ => ?_⟩, fun _ => ?_, fun t ht _ => ?_,
        fun t ht _ => ?_⟩
      · simp [TaskEngine.bid, h] at hs
      · exact absurd ht (by simp)
      · simp [TaskEngine.bid, h]
      · exact absurd ht (by simp)
      · exact absurd ht (by simp)
  | some t0 =>
      by_cases hs : t0.status = "open"
      · refine ⟨⟨fun _ => ⟨t0, rfl, hs⟩, fun _ => ?_⟩, fun hn => ?_, fun t ht hne => ?_,
          fun t ht _ => ?_⟩
        · simp [TaskEngine.bid, h, hs]
        · exact absurd hn (by simp)
        · rw [Option.some.injEq] at ht
          subst ht
          exact absurd hs hne
        · rw [Option.some.injEq] at ht
          subst ht
          simp [TaskEngine.bid, h, hs, bidPushed]
      · refine ⟨⟨fun hsome => ?_, fun ⟨t, ht, hopen⟩ => ?_⟩, fun hn => ?_,
          fun t ht hne => ?_, fun t ht hopen => ?_⟩
        · simp [TaskEngine.bid, h, hs] at hsome
        · rw [Option.some.injEq] at ht
          subst ht
          exact absurd hopen hs
        · exact absurd hn (by simp)
        · simp [TaskEngine.bid, h, hs]
        · rw [Option.some.injEq] at ht
          subst ht
          exact absurd hopen hs

/-- Demo engine holding one freshly created (hence open) task `"t1"`. -/
def bidDemoEngine : TaskEngine :=
  ((TaskEngine.mk []).createTask "t1" "Build X" "" "high" none none [] 0).2

/-- Witness for `bid_accepted_iff_open` at a concrete engine and bid. -/
theorem bid_accepted_iff_open_witness :
    (bidDemoEngine.bid "t1" "alice" 3 5).1.isSome :=
  (bid_accepted_iff_open bidDemoEngine "t1" "alice" 3 5).1.mpr ⟨_, rfl, rfl⟩

end Hive

namespace Hive

/-- The task produced by a successful `startTask`. -/
def startedTask (t : Task) (agentId : String) (now : Int) : Task :=
  { t with status := "in-progress", assignedTo := some agentId, updatedAt := now }

/-- C5: `startTask(taskId, agentId)` is rejected (returns `null`, state
unchanged) whenever the task already has an assignee different from the
calling agent; with no assignee it succeeds and binds the caller, and with the
caller already the assignee it succeeds; both success paths set status
`"in-progress"`. An assignee is a truthy `assignedTo`, as tested by the
source's `task.assignedTo && task.assignedTo !== agentId`. -/
theorem startTask_guard (e : TaskEngine) (taskId agentId : String) (now : Int) :
    (∀ t a, mapGet? e.tasks taskId = some t → t.assignedTo = some a → a ≠ "" →
        a ≠ agentId → e.startTask taskId agentId now = (none, e)) ∧
    (∀ t, mapGet? e.tasks taskId = some t → t.assignedTo = none →
        e.startTask taskId agentId now =
          (some (startedTask t agentId now),
           { e with tasks := mapSet e.tasks taskId (startedTask t agentId now) })) ∧
    (∀ t, mapGet? e.tasks taskId = some t → t.assignedTo = some agentId →
        e.startTask taskId agentId now =
          (some (startedTask t agentId now),
           { e with tasks := mapSet e.tasks taskId (startedTask t agentId now) })) := by
  cases h : mapGet? e.tasks taskId with
  | none =>
      exact ⟨fun t a ht => absurd ht (by simp), fun t ht => absurd ht (by simp),
        fun t ht => absurd ht (by simp)⟩
  | some t0 =>
      refine ⟨fun t a ht ha hne hdiff => ?_, fun t ht ha => ?_, fun t ht ha => ?_⟩
      · rw [Option.some.injEq] at ht
        subst ht
        simp [TaskEngine.startTask, h, ha, hne, hdiff]
      · rw [Option.some.injEq] at ht
        subst ht
        simp [TaskEngine.startTask, h, ha, startedTask]
      · rw [Option.some.injEq] at ht
        subst ht
        simp [TaskEngine.startTask, h, ha, startedTask]

/-- Demo engine with task `"t1"` assigned to `"alice"`. -/
def startDemoEngine : TaskEngine :=
  ((((TaskEngine.mk []).createTask "t1" "Build X" "" "high" none none [] 0).2).assign
      "t1" (some "alice") 1).2

/-- Witness for `startTask_guard`: `"bob"` cannot start `"alice"`'s task. -/
theorem startTask_guard_witness :
    startDemoEngine.startTask "t1" "bob" 2 = (none, startDemoEngine) :=
  (startTask_guard startDemoEngine "t1" "bob" 2).1 _ "alice" rfl rfl
    (by decide) (by decide)

end Hive

namespace Hive

/-- C3: `assign(taskId)` with no (truthy) explicit agent fails on an empty bid
list; with bids it assigns the agent of the maximum-score bid, the earliest
submitted one among ties (`t.bids = pre ++ best :: post` with every earlier
bid strictly smaller and every bid at most `best.score`); and both the auction
path and the direct path leave the task in status `"assigned"`. -/
theorem assign_selects_max (e : TaskEngine) (taskId : String) (now : Int) :
    (∀ t, mapGet? e.tasks taskId = some t → t.bids = [] →
        e.assign taskId none now = (none, e)) ∧
    (∀ t, mapGet? e.tasks taskId = some t → t.bids ≠ [] →
        ∃ best pre post,
          t.bids = pre ++ best :: post ∧
          (∀ b ∈ pre, b.score < best.score) ∧
          (∀ b ∈ t.bids, b.score ≤ best.score) ∧
          ∃ t2, (e.assign taskId none now).1 = some t2 ∧
            t2.assignedTo = some best.agentId ∧ t2.status = "assigned") ∧
    (∀ t a, mapGet? e.tasks taskId = some t → a ≠ "" →
        ∃ t2, (e.assign taskId (some a) now).1 = some t2 ∧
          t2.assignedTo = some a ∧ t2.status = "assigned") := by
  refine ⟨fun t ht hb => ?_, fun t ht hb => ?_, fun t a ht ha => ?_⟩
  · have hsort : stableSortDesc Bid.score t.bids = [] := by
      rw [stableSortDesc_eq_nil]
      exact hb
    simp [TaskEngine.assign, ht, strTruthy, auctionAssign, hsort]
  · have hsne : stableSortDesc Bid.score t.bids ≠ [] := by
      rw [Ne, stableSortDesc_eq_nil]
      exact hb
    cases hsort : stableSortDesc Bid.score t.bids with
    | nil => exact absurd hsort hsne
    | cons best rest =>
        have hhead : firstMax Bid.score t.bids = some best := by
          rw [← head?_stableSortDesc, hsort]
          rfl
        obtain ⟨pre, post, hsplit, hpre, hall⟩ := firstMax_decomp Bid.score t.bids best hhead
        refine ⟨best, pre, post, hsplit, hpre, hall, ?_⟩
        refine ⟨{ t with bids := best :: rest, assignedTo := some best.agentId, status := "assigned", updatedAt := now }, ?_, rfl, rfl⟩
        simp [TaskEngine.assign, ht, strTruthy, auctionAssign, hsort]
  · refine ⟨{ t with assignedTo := some a, status := "assigned", updatedAt := now },
      ?_, rfl, rfl⟩
    have hta : strTruthy (some a) = true := by
      simp [strTruthy, ha]
    simp [TaskEngine.assign, ht, hta]

/-- Demo engine for the auction: task `"t1"` with bids 3 by `"alice"`,
7 by `"bob"`, 7 by `"carol"`. -/
def assignDemoEngine : TaskEngine :=
  let e0 := ((TaskEngine.mk []).createTask "t1" "Build X" "" "high" none none [] 0).2
  let e1 := (e0.bid "t1" "alice" 3 1).2
  let e2 := (e1.bid "t1" "bob" 7 2).2
  (e2.bid "t1" "carol" 7 3).2

/-- Witness for `assign_selects_max`: the auction on the demo engine assigns
`"bob"`, the earliest of the two maximal (score 7) bidders. -/
theorem assign_selects_max_witness :
    ∃ t2, (assignDemoEngine.assign "t1" none 9).1 = some t2 ∧
      t2.assignedTo = some "bob" ∧ t2.status = "assigned" := by
  obtain ⟨best, pre, post, hsplit, hpre, hall, t2, h1, h2, h3⟩ :=
    (assign_selects_max assignDemoEngine "t1" 9).2.1 _ rfl (by decide)
  have hval : (assignDemoEngine.assign "t1" none 9).1.map Task.assignedTo =
      some (some "bob") := by decide
  rw [h1] at hval
  simp only [Option.map_some', Option.some.injEq] at hval
  exact ⟨t2, h1, hval, h3⟩

end Hive

namespace Hive

theorem statusAt_after_set (e : TaskEngine) (k tid : String) (t : Task) :
    statusAt { tasks := mapSet e.tasks k t : TaskEngine } tid =
      if k = tid then some t.status else statusAt e tid := by
  by_cases h : k = tid <;> simp [statusAt, mapGet?_set, h]

/-- Engine in which task `"t1"` was created and then completed (never assigned
or started: `completeTask` has no status precondition). -/
def lifecycleDemo : TaskEngine :=
  ((((TaskEngine.mk []).createTask "t1" "Build X" "" "medium" none none [] 0).2).completeTask
      "t1" "agentA" "done" 1).2

/-- C2 counterexample: a `"completed"` task is not immutable and status moves
backward — `startTask` on the completed (never-assigned) task `"t1"` succeeds
and drags it back to `"in-progress"`. -/
theorem task_forward_only_counterexample :
    statusAt lifecycleDemo "t1" = some "completed" ∧
    statusAt ((lifecycleDemo.startTask "t1" "agentB" 2).2) "t1" =
      some "in-progress" := by
  constructor
  · rfl
  · rfl

/-- C2 as amended: each mutating call moves a task's status only to that
call's own target status, and otherwise changes no status: `createTask` stores
`"open"`, `bid` never changes any status, and successful `assign`, `startTask`,
`completeTask`, `failTask` set exactly `"assigned"`, `"in-progress"`,
`"completed"`, `"failed"` — so a task that has left `"open"` can never return
to it, but transitions are not restricted to the forward order and
`"completed"`/`"failed"` tasks stay mutable. -/
theorem task_status_transitions (e : TaskEngine)
    (id title description priority : String) (projectId createdBy : Option String)
    (tags : List String) (taskId agentId : String) (aid? : Option String)
    (score : ℚ) (res rsn : String) (now : Int) (tid : String) :
    (statusAt ((e.createTask id title description priority projectId createdBy tags now).2) tid
        = if id = tid then some "open" else statusAt e tid) ∧
    (statusAt ((e.bid taskId agentId score now).2) tid = statusAt e tid) ∧
    (statusAt ((e.assign taskId aid? now).2) tid = statusAt e tid ∨
        statusAt ((e.assign taskId aid? now).2) tid = some "assigned") ∧
    (statusAt ((e.startTask taskId agentId now).2) tid = statusAt e tid ∨
        statusAt ((e.startTask taskId agentId now).2) tid = some "in-progress") ∧
    (statusAt ((e.completeTask taskId agentId res now).2) tid = statusAt e tid ∨
        statusAt ((e.completeTask taskId agentId res now).2) tid = some "completed") ∧
    (statusAt ((e.failTask taskId agentId rsn now).2) tid = statusAt e tid ∨
        statusAt ((e.failTask taskId agentId rsn now).2) tid = some "failed") := by
  refine ⟨?_, ?_, ?_, ?_, ?_, ?_⟩
  · rw [TaskEngine.createTask]
    rw [statusAt_after_set]
  · cases h : mapGet? e.tasks taskId with
    | none => simp [TaskEngine.bid, h]
    | some t =>
        by_cases hs : t.status = "open"
        · have : (e.bid taskId agentId score now).2 =
              { tasks := mapSet e.tasks taskId (bidPushed t agentId score now) : TaskEngine } := by
            simp [TaskEngine.bid, h, hs, bidPushed]
          rw [this, statusAt_after_set]
          by_cases htid : taskId = tid
          · subst htid
            simp [bidPushed, statusAt, h]
          · simp [htid]
        · simp [TaskEngine.bid, h, hs]
  · cases h : mapGet? e.tasks taskId with
    | none => left; simp [TaskEngine.assign, h]
    | some t =>
        by_cases hag : strTruthy aid? = true
        · by_cases htid : taskId = tid
          · right
            subst htid
            simp [TaskEngine.assign, h, hag, statusAt_after_set]
          · left
            simp [TaskEngine.assign, h, hag, statusAt_after_set, htid]
        · rw [Bool.not_eq_true] at hag
          cases ha : auctionAssign t with
          | none => left; simp [TaskEngine.assign, h, hag, ha]
          | some t1 =>
              by_cases htid : taskId = tid
              · right
                subst htid
                simp [TaskEngine.assign, h, hag, ha, statusAt_after_set]
              · left
                simp [TaskEngine.assign, h, hag, ha, statusAt_after_set, htid]
  · cases h : mapGet? e.tasks taskId with
    | none => left; simp [TaskEngine.startTask, h]
    | some t =>
        cases hb : (match t.assignedTo with
          | none => false
          | some a => a != "" && a != agentId) with
        | true => left; simp [TaskEngine.startTask, h, hb]
        | false =>
            by_cases htid : taskId = tid
            · right
              subst htid
              simp [TaskEngine.startTask, h, hb, statusAt_after_set, startedTask]
            · left
              simp [TaskEngine.startTask, h, hb, statusAt_after_set, startedTask, htid]
  · cases h : mapGet? e.tasks taskId with
    | none => left; simp [TaskEngine.completeTask, h]
    | some t =>
        by_cases htid : taskId = tid
        · right
          subst htid
          simp [TaskEngine.completeTask, h, statusAt_after_set]
        · left
          simp [TaskEngine.completeTask, h, statusAt_after_set, htid]
  · cases h : mapGet? e.tasks taskId with
    | none => left; simp [TaskEngine.failTask, h]
    | some t =>
        by_cases htid : taskId = tid
        · right
          subst htid
          simp [TaskEngine.failTask, h, statusAt_after_set]
        · left
          simp [TaskEngine.failTask, h, statusAt_after_set, htid]

end Hive

/-- JavaScript `Map.delete` on an association list with unique keys. -/
def mapDelete {α : Type} : List (String × α) → String → List (String × α)
  | [], _ => []
  | (k, v) :: rest, key => if k = key then rest else (k, v) :: mapDelete rest key

/-- JavaScript `array.slice(-n)`: the at most `n` last elements, in order. -/
def sliceLast {α : Type} (n : Nat) (l : List α) : List α :=
  l.drop (l.length - n)

theorem length_sliceLast {α : Type} (n : Nat) (l : List α) :
    (sliceLast n l).length = min l.length n := by
  simp [sliceLast]
  omega

theorem sliceLast_of_le {α : Type} (n : Nat) (l : List α) (h : l.length ≤ n) :
    sliceLast n l = l := by
  simp [sliceLast, Nat.sub_eq_zero_of_le h]

theorem sliceLast_snoc {α : Type} (n : Nat) (hn : 1 ≤ n) (l : List α) (x : α) :
    (if n < (sliceLast n l ++ [x]).length then sliceLast n (sliceLast n l ++ [x])
     else sliceLast n l ++ [x]) = sliceLast n (l ++ [x]) := by
  by_cases hk : l.length < n
  · rw [sliceLast_of_le n l (le_of_lt hk)]
    rw [if_neg (by simp; omega)]
    rw [sliceLast_of_le n (l ++ [x]) (by simp; omega)]
  · push_neg at hk
    have hlen : (sliceLast n l).length = n := by
      rw [length_sliceLast]
      omega
    rw [if_pos (by simp [hlen])]
    have key : ∀ s : List α, s.length = n → sliceLast n (s ++ [x]) = s.drop 1 ++ [x] := by
      intro s hs
      simp only [sliceLast, List.length_append, hs, List.length_singleton]
      have h2 : n + 1 - n = 1 := by omega
      rw [h2]
      exact List.drop_append_of_le_length (by omega)
    rw [key (sliceLast n l) hlen]
    simp only [sliceLast]
    rw [List.drop_drop]
    rw [List.length_append, List.length_singleton]
    rw [List.drop_append_of_le_length (by omega)]
    congr 2
    omega

namespace Hive

/-- The caller-supplied part of an operation (`operation` in
`applyOperation`); its payload is opaque to the engine. -/
structure OpInput where
  agentId : String
  payload : String
deriving DecidableEq, Repr

/-- A stamped operation as stored in the per-workspace log. -/
structure Operation where
  agentId : String
  payload : String
  version : Nat
  timestamp : Int
  id : String
deriving DecidableEq, Repr

/-- A stored cursor: opaque position data plus the stamped timestamp. -/
structure Cursor where
  data : String
  timestamp : Int
deriving DecidableEq, Repr

/-- `SyncEngine` state: `this.operations`, `this.cursors`, `this.versions`,
each a `Map` keyed by project (workspace) id. -/
structure SyncEngine where
  operations : List (String × List Operation)
  cursors : List (String × List (String × Cursor))
  versions : List (String × Nat)
deriving DecidableEq, Repr

def emptySyncEngine : SyncEngine := ⟨[], [], []⟩

/-- `initializeProject`: lazily create the three per-project entries, guarded
by `this.operations.has(projectId)`. -/
def SyncEngine.initializeProject (e : SyncEngine) (projectId : String) : SyncEngine :=
  if (mapGet? e.operations projectId).isSome then e
  else
    { operations := mapSet e.operations projectId []
      cursors := mapSet e.cursors projectId []
      versions := mapSet e.versions projectId 0 }

/-- `applyOperation(projectId, operation)`: version `current + 1`, timestamp
and id stamped, appended to the log, log trimmed to the last 1000 entries.
`Date.now()` and the `Math.random` id suffix are the explicit `now`/`rand`. -/
def SyncEngine.applyOperation (e : SyncEngine) (projectId : String)
    (operation : OpInput) (now : Int) (rand : String) : Operation × SyncEngine :=
  let e1 := e.initializeProject projectId
  let ops := (mapGet? e1.operations projectId).getD []
  let version := (mapGet? e1.versions projectId).getD 0 + 1
  let op : Operation := {
    agentId := operation.agentId, payload := operation.payload,
    version := version, timestamp := now,
    id := operation.agentId ++ "-" ++ toString now ++ "-" ++ rand }
  let ops2 := ops ++ [op]
  (op, { operations := mapSet e1.operations projectId
           (if 1000 < ops2.length then sliceLast 1000 ops2 else ops2)
         cursors := e1.cursors
         versions := mapSet e1.versions projectId version })

/-- `getOperationsSince(projectId, sinceVersion)`: entries with version
strictly greater, in log order; read-only. -/
def SyncEngine.getOperationsSince (e : SyncEngine) (projectId : String)
    (sinceVersion : Nat) : List Operation × SyncEngine :=
  (((mapGet? e.operations projectId).getD []).filter
      (fun op => decide (sinceVersion < op.version)), e)

/-- `getVersion(projectId)`: the version counter, 0 for an unknown project;
read-only. -/
def SyncEngine.getVersion (e : SyncEngine) (projectId : String) : Nat × SyncEngine :=
  ((mapGet? e.versions projectId).getD 0, e)

/-- `updateCursor(projectId, agentId, cursor)`: upsert with current timestamp. -/
def SyncEngine.updateCursor (e : SyncEngine) (projectId agentId : String)
    (cursorData : String) (now : Int) : (String × Cursor) × SyncEngine :=
  let e1 := e.initializeProject projectId
  let cmap := (mapGet? e1.cursors projectId).getD []
  let c : Cursor := { data := cursorData, timestamp := now }
  ((agentId, c), { e1 with cursors := mapSet e1.cursors projectId (mapSet cmap agentId c) })

/-- `getCursors(projectId)`: only cursors younger than the 60000 ms liveness
window relative to call time; filtering only, nothing deleted; read-only. -/
def SyncEngine.getCursors (e : SyncEngine) (projectId : String) (now : Int) :
    List (String × Cursor) × SyncEngine :=
  match mapGet? e.cursors projectId with
  | none => ([], e)
  | some cmap => (cmap.filter (fun p => decide (now - p.2.timestamp < 60000)), e)

/-- `removeCursor(projectId, agentId)`: explicit deletion on leave. -/
def SyncEngine.removeCursor (e : SyncEngine) (projectId agentId : String) : SyncEngine :=
  match mapGet? e.cursors projectId with
  | none => e
  | some cmap => { e with cursors := mapSet e.cursors projectId (mapDelete cmap agentId) }

end Hive

namespace Hive

/-- One externally triggered mutating call on the sync engine. -/
inductive SyncEvent where
  | apply (projectId : String) (operation : OpInput) (now : Int) (rand : String)
  | cursor (projectId agentId : String) (data : String) (now : Int)
  | removeCur (projectId agentId : String)
deriving DecidableEq, Repr

/-- Run a sequence of mutating calls from a state, collecting the operation
returned by each `applyOperation` tagged with its workspace. -/
def runSync (e : SyncEngine) : List SyncEvent → SyncEngine × List (String × Operation)
  | [] => (e, [])
  | SyncEvent.apply pid op now rand :: rest =>
      let r := e.applyOperation pid op now rand
      let rr := runSync r.2 rest
      (rr.1, (pid, r.1) :: rr.2)
  | SyncEvent.cursor pid aid d now :: rest =>
      runSync (e.updateCursor pid aid d now).2 rest
  | SyncEvent.removeCur pid aid :: rest =>
      runSync (e.removeCursor pid aid) rest

/-- The operations accepted (returned by `applyOperation`) for workspace `pid`
along a trace, in acceptance order. -/
def acceptedOps (e : SyncEngine) (trace : List SyncEvent) (pid : String) : List Operation :=
  ((runSync e trace).2.filter (fun p => decide (p.1 = pid))).map Prod.snd

/-- The stored log of workspace `pid` (empty when absent). -/
def logOf (e : SyncEngine) (pid : String) : List Operation :=
  (mapGet? e.operations pid).getD []

/-- The stored version counter of workspace `pid` (0 when absent). -/
def versionOf (e : SyncEngine) (pid : String) : Nat :=
  (mapGet? e.versions pid).getD 0

/-- Invariant tying a state to the full per-workspace history `L`: the version
counter counts the history, the log is the at most 1000 most recent history
entries, and the operations and versions maps have the same keys. -/
def Hist (e : SyncEngine) (L : String → List Operation) : Prop :=
  ∀ pid, versionOf e pid = (L pid).length ∧
    logOf e pid = sliceLast 1000 (L pid) ∧
    ((mapGet? e.operations pid).isSome ↔ (mapGet? e.versions pid).isSome)

theorem hist_congr {e : SyncEngine} {L M : String → List Operation}
    (hLM : ∀ p, L p = M p) (h : Hist e L) : Hist e M := by
  intro p
  rw [← hLM p]
  exact h p

theorem hist_empty : Hist emptySyncEngine (fun _ => []) := by
  intro p
  simp [emptySyncEngine, versionOf, logOf, sliceLast]

theorem hist_init (e : SyncEngine) (L : String → List Operation) (pid : String)
    (h : Hist e L) : Hist (e.initializeProject pid) L := by
  intro p
  unfold SyncEngine.initializeProject
  by_cases hop : (mapGet? e.operations pid).isSome
  · rw [if_pos hop]
    exact h p
  · rw [if_neg hop]
    obtain ⟨h1, h2, h3⟩ := h p
    by_cases hp : pid = p
    · subst hp
      have hvn : mapGet? e.versions pid = none := by
        cases hv : mapGet? e.versions pid with
        | none => rfl
        | some v => exact absurd (h3.mpr (by simp [hv])) hop
      have hL : L pid = [] := by
        have : versionOf e pid = 0 := by simp [versionOf, hvn]
        rw [this] at h1
        exact List.length_eq_zero.mp h1.symm
      refine ⟨?_, ?_, ?_⟩
      · simp [versionOf, mapGet?_set_self, hL]
      · simp [logOf, mapGet?_set_self, hL, sliceLast]
      · simp [mapGet?_set_self]
    · refine ⟨?_, ?_, ?_⟩
      · simpa [versionOf, mapGet?_set_ne _ _ _ _ hp] using h1
      · simpa [logOf, mapGet?_set_ne _ _ _ _ hp] using h2
      · simpa [mapGet?_set_ne _ _ _ _ hp] using h3

theorem init_keys_present (e : SyncEngine) (L : String → List Operation) (pid : String)
    (h : Hist e L) :
    (mapGet? (e.initializeProject pid).operations pid).isSome ∧
    (mapGet? (e.initializeProject pid).versions pid).isSome := by
  unfold SyncEngine.initializeProject
  by_cases hop : (mapGet? e.operations pid).isSome
  · rw [if_pos hop]
    exact ⟨hop, ((h pid).2.2).mp hop⟩
  · rw [if_neg hop]
    simp [mapGet?_set_self]

end Hive

namespace Hive

theorem hist_apply (e : SyncEngine) (L : String → List Operation) (pid : String)
    (op : OpInput) (now : Int) (rand : String) (h : Hist e L) :
    (e.applyOperation pid op now rand).1.version = (L pid).length + 1 ∧
    Hist (e.applyOperation pid op now rand).2
      (fun p => if p = pid then L p ++ [(e.applyOperation pid op now rand).1] else L p) := by
  have h1 := hist_init e L pid h
  have hv : (mapGet? (e.initializeProject pid).versions pid).getD 0 = (L pid).length :=
    (h1 pid).1
  have hlog : (mapGet? (e.initializeProject pid).operations pid).getD [] =
      sliceLast 1000 (L pid) := (h1 pid).2.1
  constructor
  · simp only [SyncEngine.applyOperation]
    rw [hv]
  · intro p
    by_cases hp : p = pid
    · subst hp
      refine ⟨?_, ?_, ?_⟩
      · simp only [SyncEngine.applyOperation, versionOf, mapGet?_set_self]
        simp [hv]
      · simp only [SyncEngine.applyOperation, logOf, mapGet?_set_self]
        simp only [hlog, hv, Option.getD_some]
        rw [sliceLast_snoc 1000 (by omega)]
        simp [SyncEngine.applyOperation, hv]
      · simp [SyncEngine.applyOperation, mapGet?_set_self]
    · have hne : pid ≠ p := fun hh => hp hh.symm
      obtain ⟨g1, g2, g3⟩ := h1 p
      refine ⟨?_, ?_, ?_⟩
      · simp only [SyncEngine.applyOperation, versionOf, mapGet?_set_ne _ _ _ _ hne]
        simp only [versionOf] at g1
        simp [g1, hp]
      · simp only [SyncEngine.applyOperation, logOf, mapGet?_set_ne _ _ _ _ hne]
        simp only [logOf] at g2
        simp [g2, hp]
      · simp only [SyncEngine.applyOperation, mapGet?_set_ne _ _ _ _ hne]
        exact g3

theorem hist_cursor (e : SyncEngine) (L : String → List Operation)
    (pid aid d : String) (now : Int) (h : Hist e L) :
    Hist (e.updateCursor pid aid d now).2 L := by
  have h1 := hist_init e L pid h
  intro p
  obtain ⟨g1, g2, g3⟩ := h1 p
  exact ⟨by simpa [SyncEngine.updateCursor, versionOf] using g1,
    by simpa [SyncEngine.updateCursor, logOf] using g2,
    by simpa [SyncEngine.updateCursor] using g3⟩

theorem hist_removeCur (e : SyncEngine) (L : String → List Operation)
    (pid aid : String) (h : Hist e L) :
    Hist (e.removeCursor pid aid) L := by
  intro p
  obtain ⟨g1, g2, g3⟩ := h p
  unfold SyncEngine.removeCursor
  cases hc : mapGet? e.cursors pid with
  | none => exact ⟨g1, g2, g3⟩
  | some cmap =>
      exact ⟨by simpa [versionOf] using g1, by simpa [logOf] using g2, g3⟩

end Hive

namespace Hive

theorem runSync_spec (trace : List SyncEvent) :
    ∀ (e : SyncEngine) (L : String → List Operation), Hist e L →
      Hist (runSync e trace).1 (fun p => L p ++ acceptedOps e trace p) ∧
      ∀ pid, (acceptedOps e trace pid).map Operation.version =
        List.range' ((L pid).length + 1) (acceptedOps e trace pid).length := by
  induction trace with
  | nil =>
      intro e L h
      constructor
      · exact hist_congr (fun p => by simp [acceptedOps, runSync]) h
      · intro pid
        simp [acceptedOps, runSync]
  | cons ev rest ih =>
      intro e L h
      cases ev with
      | apply pid0 op now rand =>
          obtain ⟨hv, h2⟩ := hist_apply e L pid0 op now rand h
          obtain ⟨ihh, ihv⟩ := ih (e.applyOperation pid0 op now rand).2
            (fun p => if p = pid0 then L p ++ [(e.applyOperation pid0 op now rand).1]
              else L p) h2
          have hrun1 : (runSync e (SyncEvent.apply pid0 op now rand :: rest)).1 =
              (runSync (e.applyOperation pid0 op now rand).2 rest).1 := by
            simp [runSync]
          have hacc : ∀ p, acceptedOps e (SyncEvent.apply pid0 op now rand :: rest) p =
              (if p = pid0 then [(e.applyOperation pid0 op now rand).1] else []) ++
                acceptedOps (e.applyOperation pid0 op now rand).2 rest p := by
            intro p
            by_cases hp : pid0 = p
            · subst hp
              simp [acceptedOps, runSync]
            · have hp' : ¬ p = pid0 := fun hh => hp hh.symm
              simp [acceptedOps, runSync, hp, hp']
          constructor
          · rw [hrun1]
            refine hist_congr (fun p => ?_) ihh
            rw [hacc p]
            by_cases hp : p = pid0
            · subst hp
              simp
            · simp [hp]
          · intro pid
            rw [hacc pid]
            by_cases hp : pid = pid0
            · subst hp
              have hbase := ihv pid
              rw [if_pos rfl] at hbase
              rw [if_pos rfl]
              simp only [List.length_append, List.length_singleton] at hbase
              simp only [List.singleton_append, List.map_cons, hv, hbase,
                List.length_cons]
              rw [List.range'_succ]
            · have hbase := ihv pid
              simp only [if_neg hp] at hbase
              simp only [if_neg hp, List.nil_append]
              exact hbase
      | cursor pid0 aid d now0 =>
          have h2 := hist_cursor e L pid0 aid d now0 h
          obtain ⟨ihh, ihv⟩ := ih (e.updateCursor pid0 aid d now0).2 L h2
          have hacc : ∀ p, acceptedOps e (SyncEvent.cursor pid0 aid d now0 :: rest) p =
              acceptedOps (e.updateCursor pid0 aid d now0).2 rest p := by
            intro p
            simp [acceptedOps, runSync]
          constructor
          · have hrun1 : (runSync e (SyncEvent.cursor pid0 aid d now0 :: rest)).1 =
                (runSync (e.updateCursor pid0 aid d now0).2 rest).1 := by
              simp [runSync]
            rw [hrun1]
            exact hist_congr (fun p => by rw [hacc p]) ihh
          · intro pid
            rw [hacc pid]
            exact ihv pid
      | removeCur pid0 aid =>
          have h2 := hist_removeCur e L pid0 aid h
          obtain ⟨ihh, ihv⟩ := ih (e.removeCursor pid0 aid) L h2
          have hacc : ∀ p, acceptedOps e (SyncEvent.removeCur pid0 aid :: rest) p =
              acceptedOps (e.removeCursor pid0 aid) rest p := by
            intro p
            simp [acceptedOps, runSync]
          constructor
          · have hrun1 : (runSync e (SyncEvent.removeCur pid0 aid :: rest)).1 =
                (runSync (e.removeCursor pid0 aid) rest).1 := by
              simp [runSync]
            rw [hrun1]
            exact hist_congr (fun p => by rw [hacc p]) ihh
          · intro pid
            rw [hacc pid]
            exact ihv pid

/-- C4: along any sequence of engine calls from the empty engine, the versions
of the operations accepted for a workspace are exactly `1, 2, 3, …` in
acceptance order (strictly increasing, no gaps, no repeats, the n-th accepted
operation carrying version n); after the run the stored log is exactly the at
most 1000 most recent accepted operations, unmodified (never renumbered by
trimming); and the log never holds more than 1000 entries. -/
theorem applyOperation_version_sequence (trace : List SyncEvent) (pid : String) :
    (acceptedOps emptySyncEngine trace pid).map Operation.version =
      List.range' 1 (acceptedOps emptySyncEngine trace pid).length ∧
    logOf (runSync emptySyncEngine trace).1 pid =
      sliceLast 1000 (acceptedOps emptySyncEngine trace pid) ∧
    (logOf (runSync emptySyncEngine trace).1 pid).length ≤ 1000 := by
  obtain ⟨hh, hv⟩ := runSync_spec trace emptySyncEngine (fun _ => []) hist_empty
  refine ⟨by simpa using hv pid, by simpa using (hh pid).2.1, ?_⟩
  have := (hh pid).2.1
  simp only [List.nil_append] at this
  rw [this, length_sliceLast]
  omega

end Hive

namespace Hive

/-- The workspace a sync event addresses. -/
def SyncEvent.targets : SyncEvent → String
  | .apply p _ _ _ => p
  | .cursor p _ _ _ => p
  | .removeCur p _ => p

theorem init_preserves_other (e : SyncEngine) (pid0 pid : String) (hne : pid0 ≠ pid) :
    mapGet? (e.initializeProject pid0).operations pid = mapGet? e.operations pid ∧
    mapGet? (e.initializeProject pid0).cursors pid = mapGet? e.cursors pid ∧
    mapGet? (e.initializeProject pid0).versions pid = mapGet? e.versions pid := by
  unfold SyncEngine.initializeProject
  by_cases hop : (mapGet? e.operations pid0).isSome
  · rw [if_pos hop]
    exact ⟨rfl, rfl, rfl⟩
  · rw [if_neg hop]
    exact ⟨mapGet?_set_ne _ _ _ _ hne, mapGet?_set_ne _ _ _ _ hne,
      mapGet?_set_ne _ _ _ _ hne⟩

theorem runSync_preserves_absent (trace : List SyncEvent) :
    ∀ (e : SyncEngine) (pid : String),
      (∀ ev ∈ trace, SyncEvent.targets ev ≠ pid) →
      mapGet? e.operations pid = none → mapGet? e.cursors pid = none →
      mapGet? e.versions pid = none →
      mapGet? (runSync e trace).1.operations pid = none ∧
      mapGet? (runSync e trace).1.cursors pid = none ∧
      mapGet? (runSync e trace).1.versions pid = none := by
  induction trace with
  | nil =>
      intro e pid _ h1 h2 h3
      exact ⟨h1, h2, h3⟩
  | cons ev rest ih =>
      intro e pid h h1 h2 h3
      have hev : SyncEvent.targets ev ≠ pid := h ev (by simp)
      have hrest : ∀ ev ∈ rest, SyncEvent.targets ev ≠ pid := fun x hx => h x (by simp [hx])
      cases ev with
      | apply pid0 op now rand =>
          have hne : pid0 ≠ pid := hev
          obtain ⟨i1, i2, i3⟩ := init_preserves_other e pid0 pid hne
          have g1 : mapGet? (e.applyOperation pid0 op now rand).2.operations pid = none := by
            simp only [SyncEngine.applyOperation, mapGet?_set_ne _ _ _ _ hne]
            rw [i1, h1]
          have g2 : mapGet? (e.applyOperation pid0 op now rand).2.cursors pid = none := by
            simp only [SyncEngine.applyOperation]
            rw [i2, h2]
          have g3 : mapGet? (e.applyOperation pid0 op now rand).2.versions pid = none := by
            simp only [SyncEngine.applyOperation, mapGet?_set_ne _ _ _ _ hne]
            rw [i3, h3]
          have := ih (e.applyOperation pid0 op now rand).2 pid hrest g1 g2 g3
          simpa [runSync] using this
      | cursor pid0 aid d now0 =>
          have hne : pid0 ≠ pid := hev
          obtain ⟨i1, i2, i3⟩ := init_preserves_other e pid0 pid hne
          have g1 : mapGet? (e.updateCursor pid0 aid d now0).2.operations pid = none := by
            simp only [SyncEngine.updateCursor]
            rw [i1, h1]
          have g2 : mapGet? (e.updateCursor pid0 aid d now0).2.cursors pid = none := by
            simp only [SyncEngine.updateCursor, mapGet?_set_ne _ _ _ _ hne]
            rw [i2, h2]
          have g3 : mapGet? (e.updateCursor pid0 aid d now0).2.versions pid = none := by
            simp only [SyncEngine.updateCursor]
            rw [i3, h3]
          have := ih (e.updateCursor pid0 aid d now0).2 pid hrest g1 g2 g3
          simpa [runSync] using this
      | removeCur pid0 aid =>
          have hne : pid0 ≠ pid := hev
          have g123 : mapGet? (e.removeCursor pid0 aid).operations pid = none ∧
              mapGet? (e.removeCursor pid0 aid).cursors pid = none ∧
              mapGet? (e.removeCursor pid0 aid).versions pid = none := by
            unfold SyncEngine.removeCursor
            cases hc : mapGet? e.cursors pid0 with
            | none => exact ⟨h1, h2, h3⟩
            | some cmap =>
                exact ⟨h1, by simpa [mapGet?_set_ne _ _ _ _ hne] using h2, h3⟩
          obtain ⟨g1, g2, g3⟩ := g123
          have := ih (e.removeCursor pid0 aid) pid hrest g1 g2 g3
          simpa [runSync] using this

/-- C9: for a workspace id never addressed by any event of the trace, the
read-only queries are total and empty — `getVersion` returns 0,
`getOperationsSince` the empty list, `getCursors` the empty map — each
returning the state unchanged, and no entry for the workspace exists in any
of the three maps (none of the calls creates state). -/
theorem unknown_workspace_queries (trace : List SyncEvent) (pid : String)
    (h : ∀ ev ∈ trace, SyncEvent.targets ev ≠ pid) (v : Nat) (now : Int) :
    (runSync emptySyncEngine trace).1.getVersion pid =
      (0, (runSync emptySyncEngine trace).1) ∧
    (runSync emptySyncEngine trace).1.getOperationsSince pid v =
      ([], (runSync emptySyncEngine trace).1) ∧
    (runSync emptySyncEngine trace).1.getCursors pid now =
      ([], (runSync emptySyncEngine trace).1) ∧
    mapGet? (runSync emptySyncEngine trace).1.operations pid = none ∧
    mapGet? (runSync emptySyncEngine trace).1.cursors pid = none ∧
    mapGet? (runSync emptySyncEngine trace).1.versions pid = none := by
  obtain ⟨g1, g2, g3⟩ := runSync_preserves_absent trace emptySyncEngine pid h rfl rfl rfl
  refine ⟨?_, ?_, ?_, g1, g2, g3⟩
  · simp [SyncEngine.getVersion, g3]
  · simp [SyncEngine.getOperationsSince, g1]
  · simp [SyncEngine.getCursors, g2]

/-- Witness for `unknown_workspace_queries`: one event on workspace `"w2"`
leaves workspace `"w1"` unknown and its queries empty. -/
theorem unknown_workspace_queries_witness :
    (runSync emptySyncEngine [SyncEvent.apply "w2" ⟨"a", "p"⟩ 0 "r"]).1.getVersion "w1" =
      (0, (runSync emptySyncEngine [SyncEvent.apply "w2" ⟨"a", "p"⟩ 0 "r"]).1) :=
  (unknown_workspace_queries [SyncEvent.apply "w2" ⟨"a", "p"⟩ 0 "r"] "w1"
    (by decide) 0 0).1

end Hive

theorem mapGet?_eq_none_iff {α : Type} (l : List (String × α)) (k : String) :
    mapGet? l k = none ↔ k ∉ l.map Prod.fst := by
  induction l with
  | nil => simp
  | cons hd tl ih =>
      obtain ⟨k0, v0⟩ := hd
      by_cases h : k0 = k
      · subst h
        simp
      · have hk : ¬ k = k0 := fun hh => h hh.symm
        simp [h, ih, hk]

theorem mapGet?_filter {α : Type} (p : String × α → Bool) (l : List (String × α))
    (k : String) (hnd : (l.map Prod.fst).Nodup) :
    mapGet? (l.filter p) k =
      match mapGet? l k with
      | none => none
      | some v => if p (k, v) then some v else none := by
  induction l with
  | nil => simp
  | cons hd tl ih =>
      obtain ⟨k0, v0⟩ := hd
      simp only [List.map_cons, List.nodup_cons] at hnd
      obtain ⟨hk0, hnd'⟩ := hnd
      by_cases hkk : k0 = k
      · subst hkk
        cases hp : p (k0, v0) with
        | true => simp [List.filter_cons, hp]
        | false =>
            have htl : mapGet? tl k0 = none := (mapGet?_eq_none_iff tl k0).mpr hk0
            simp [List.filter_cons, hp, ih hnd', htl]
      · cases hp : p (k0, v0) with
        | true => simp [List.filter_cons, hp, hkk, ih hnd']
        | false => simp [List.filter_cons, hp, hkk, ih hnd']

namespace Hive

/-- C7: a cursor stored with timestamp T is in the `getCursors` view for every
call strictly before T + 60000 ms and out of it for every call strictly after;
each entry of the view depends only on that agent's own stored cursor (agents
with no stored cursor are absent, others are filtered by their own timestamp
alone), and the call leaves the engine state — in particular the stored cursor
map — unchanged. -/
theorem getCursors_liveness (e : SyncEngine) (pid : String) (now : Int)
    (cmap : List (String × Cursor)) (hc : mapGet? e.cursors pid = some cmap)
    (hnd : (cmap.map Prod.fst).Nodup) :
    (∀ aid c, mapGet? cmap aid = some c →
        (now < c.timestamp + 60000 → mapGet? (e.getCursors pid now).1 aid = some c) ∧
        (c.timestamp + 60000 < now → mapGet? (e.getCursors pid now).1 aid = none)) ∧
    (∀ aid, mapGet? cmap aid = none → mapGet? (e.getCursors pid now).1 aid = none) ∧
    (e.getCursors pid now).2 = e := by
  have hres : (e.getCursors pid now).1 =
      cmap.filter (fun p => decide (now - p.2.timestamp < 60000)) := by
    simp [SyncEngine.getCursors, hc]
  have hstate : (e.getCursors pid now).2 = e := by
    simp [SyncEngine.getCursors, hc]
  refine ⟨fun aid c hac => ⟨fun hfresh => ?_, fun hstale => ?_⟩, fun aid hnone => ?_,
    hstate⟩
  · have hlt : now - c.timestamp < 60000 := by omega
    rw [hres, mapGet?_filter _ cmap aid hnd, hac]
    simp [hlt]
  · have hge : ¬ now - c.timestamp < 60000 := by omega
    rw [hres, mapGet?_filter _ cmap aid hnd, hac]
    simp [hge]
  · rw [hres, mapGet?_filter _ cmap aid hnd, hnone]

/-- Engine with one cursor for agent `"a"` in workspace `"w"`, stamped at
time 100. -/
def cursorDemoEngine : SyncEngine :=
  (emptySyncEngine.updateCursor "w" "a" "d" 100).2

/-- Witness for `getCursors_liveness`: the cursor stamped at 100 is visible at
time 50000 (before 100 + 60000). -/
theorem getCursors_liveness_witness :
    mapGet? (cursorDemoEngine.getCursors "w" 50000).1 "a" = some ⟨"d", 100⟩ :=
  ((getCursors_liveness cursorDemoEngine "w" 50000 [("a", ⟨"d", 100⟩)] rfl
      (by decide)).1 "a" ⟨"d", 100⟩ rfl).1 (by decide)

end Hive

namespace Hive

/-- A skill request as built by `createRequest`; `claimedAt`/`completedAt` are
added later by `claimRequest`/`completeRequest`, so they start absent. -/
structure SkillRequest where
  id : String
  requesterId : String
  skillName : String
  params : String
  status : String
  createdAt : Int
  providers : List String
  assignedTo : Option String
  result : Option String
  claimedAt : Option Int
  completedAt : Option Int
deriving DecidableEq, Repr

/-- `SkillRegistry` state: `skills` (skill → provider set), `agentSkills`
(agent → skill set), `pendingRequests` (request id → request), and the
`requestCounter`. -/
structure SkillRegistry where
  skills : List (String × List String)
  agentSkills : List (String × List String)
  pendingRequests : List (String × SkillRequest)
  requestCounter : Nat
deriving DecidableEq, Repr

/-- `registerSkills(agentId, skillList)`: add each skill to the agent's set
and the agent to each skill's provider set; returns the agent's full set. -/
def SkillRegistry.registerSkills (r : SkillRegistry) (agentId : String)
    (skillList : List String) : List String × SkillRegistry :=
  let start : List String := (mapGet? r.agentSkills agentId).getD []
  let res := skillList.foldl
    (fun (st : List String × List (String × List String)) (skill : String) =>
      (setAdd st.1 skill,
       mapSet st.2 skill (setAdd ((mapGet? st.2 skill).getD []) agentId)))
    (start, r.skills)
  (res.1, { r with agentSkills := mapSet r.agentSkills agentId res.1, skills := res.2 })

/-- `findProviders(skillName)`: the provider list, empty when unknown. -/
def SkillRegistry.findProviders (r : SkillRegistry) (skillName : String) : List String :=
  (mapGet? r.skills skillName).getD []

/-- `createRequest(requesterId, skillName, params)`: error when no providers
exist; otherwise the current provider list is snapshotted into the request. -/
def SkillRegistry.createRequest (r : SkillRegistry) (requesterId skillName params : String)
    (now : Int) : Except String SkillRequest × SkillRegistry :=
  let providers := r.findProviders skillName
  if providers = [] then
    (Except.error ("No providers for skill: " ++ skillName), r)
  else
    let counter := r.requestCounter + 1
    let requestId := "req_" ++ toString counter ++ "_" ++ toString now
    let request : SkillRequest := {
      id := requestId, requesterId := requesterId, skillName := skillName,
      params := params, status := "pending", createdAt := now,
      providers := providers, assignedTo := none, result := none,
      claimedAt := none, completedAt := none }
    (Except.ok request,
     { r with requestCounter := counter,
              pendingRequests := mapSet r.pendingRequests requestId request })

/-- The request record produced by a successful claim. -/
def claimedRequest (req : SkillRequest) (agentId : String) (now : Int) : SkillRequest :=
  { req with status := "claimed", assignedTo := some agentId, claimedAt := some now }

/-- `claimRequest(requestId, agentId)`: error when the request is unknown,
non-pending, or the agent is not in the snapshotted provider list. -/
def SkillRegistry.claimRequest (r : SkillRegistry) (requestId agentId : String)
    (now : Int) : Except String SkillRequest × SkillRegistry :=
  match mapGet? r.pendingRequests requestId with
  | none => (Except.error "Request not found", r)
  | some request =>
      if request.status ≠ "pending" then (Except.error "Request already claimed", r)
      else if agentId ∉ request.providers then
        (Except.error "Agent not authorized for this skill", r)
      else
        (Except.ok (claimedRequest request agentId now),
         { r with pendingRequests :=
             mapSet r.pendingRequests requestId (claimedRequest request agentId now) })

/-- C6: `claimRequest` returns an error and leaves the registry unchanged when
the request is unknown, non-pending, or the claimant is not in the provider
list snapshotted at creation; otherwise it succeeds, setting status
`"claimed"` and the claimant. `registerSkills` never touches stored requests,
so registering a skill after a request was created cannot put an agent into
that request's snapshot. -/
theorem claimRequest_guard (r : SkillRegistry) (requestId agentId : String) (now : Int) :
    (mapGet? r.pendingRequests requestId = none →
        r.claimRequest requestId agentId now = (Except.error "Request not found", r)) ∧
    (∀ req, mapGet? r.pendingRequests requestId = some req → req.status ≠ "pending" →
        r.claimRequest requestId agentId now = (Except.error "Request already claimed", r)) ∧
    (∀ req, mapGet? r.pendingRequests requestId = some req → req.status = "pending" →
        agentId ∉ req.providers →
        r.claimRequest requestId agentId now =
          (Except.error "Agent not authorized for this skill", r)) ∧
    (∀ req, mapGet? r.pendingRequests requestId = some req → req.status = "pending" →
        agentId ∈ req.providers →
        r.claimRequest requestId agentId now =
          (Except.ok (claimedRequest req agentId now),
           { r with pendingRequests :=
               mapSet r.pendingRequests requestId (claimedRequest req agentId now) })) ∧
    (∀ aid skills, (r.registerSkills aid skills).2.pendingRequests = r.pendingRequests) := by
  refine ⟨fun hn => ?_, fun req hr hs => ?_, fun req hr hs hm => ?_,
    fun req hr hs hm => ?_, fun aid skills => ?_⟩
  · simp [SkillRegistry.claimRequest, hn]
  · simp [SkillRegistry.claimRequest, hr, hs]
  · simp [SkillRegistry.claimRequest, hr, hs, hm]
  · simp [SkillRegistry.claimRequest, hr, hs, hm]
  · simp [SkillRegistry.registerSkills]

/-- Registry where `"a1"` registered `"review"`, `"a2"` then created request
`"req_1_5"`, and `"a3"` registered `"review"` only afterwards. -/
def skillDemoRegistry : SkillRegistry :=
  let r0 : SkillRegistry := ⟨[], [], [], 0⟩
  let r1 := (r0.registerSkills "a1" ["review"]).2
  let r2 := (r1.createRequest "a2" "review" "p" 5).2
  (r2.registerSkills "a3" ["review"]).2

/-- Witness for `claimRequest_guard`: `"a3"`, who registered the skill only
after the request was created, is still rejected. -/
theorem claimRequest_guard_witness :
    skillDemoRegistry.claimRequest "req_1_5" "a3" 9 =
      (Except.error "Agent not authorized for this skill", skillDemoRegistry) :=
  (claimRequest_guard skillDemoRegistry "req_1_5" "a3" 9).2.2.1 _ rfl (by decide)
    (by decide)

end Hive

namespace Hive

/-- Declared compute resources; every field optional (`null` on creation). -/
structure Resources where
  cpuCores : Option ℚ
  gpuVramGb : Option ℚ
  ramGb : Option ℚ
  storageGb : Option ℚ
deriving DecidableEq, Repr

/-- Cumulative per-agent stats. JavaScript numbers are modelled as exact
rationals. -/
structure Stats where
  actionsCompleted : ℚ
  tasksCompleted : ℚ
  linesWritten : ℚ
  timeSpentCodingMs : ℚ
  errors : ℚ
deriving DecidableEq, Repr

/-- An agent record as built by `registerAgent`. -/
structure Agent where
  id : String
  socketId : String
  number : Nat
  name : String
  displayName : String
  capabilities : List String
  avatar : String
  color : String
  status : String
  currentProject : Option String
  joinedAt : Int
  lastSeen : Int
  lastCodingAt : Option Int
  resources : Resources
  stats : Stats
deriving DecidableEq, Repr

/-- `AgentManager` state: `this.agents` (socket id → agent) and
`this.agentsById` (agent id → socket id). -/
structure AgentManager where
  agents : List (String × Agent)
  agentsById : List (String × String)
deriving DecidableEq, Repr

/-- `Array.from(this.agents.values())`, in map insertion order. -/
def AgentManager.getAllAgents (m : AgentManager) : List Agent :=
  m.agents.map Prod.snd

/-- JavaScript `upd ?? old`: keep `old` exactly when `upd` is null/absent. -/
def nullish {α : Type} (upd old : Option α) : Option α :=
  match upd with
  | none => old
  | some v => some v

/-- The per-field resource merge performed by `updateResources`. -/
def mergeResources (upd old : Resources) : Resources :=
  { cpuCores := nullish upd.cpuCores old.cpuCores
    gpuVramGb := nullish upd.gpuVramGb old.gpuVramGb
    ramGb := nullish upd.ramGb old.ramGb
    storageGb := nullish upd.storageGb old.storageGb }

/-- The agent after `updateResources`: only `resources` replaced. -/
def mergedAgent (a : Agent) (upd : Resources) : Agent :=
  { a with resources := mergeResources upd a.resources }

/-- `getAgentById(agentId)`: id → socket id (falsy socket id gives null) →
agent. -/
def AgentManager.getAgentById (m : AgentManager) (agentId : String) : Option Agent :=
  match mapGet? m.agentsById agentId with
  | none => none
  | some sid => if sid = "" then none else mapGet? m.agents sid

/-- `updateResources(agentId, resources)`: null on unknown agent; otherwise
merge field by field with `??`. The source mutates the agent object in place
through the reference `getAgentById` returned; here the record is written
back at the socket key the lookup went through. -/
def AgentManager.updateResources (m : AgentManager) (agentId : String)
    (resources : Resources) : Option Agent × AgentManager :=
  match mapGet? m.agentsById agentId with
  | none => (none, m)
  | some sid =>
      if sid = "" then (none, m)
      else
        match mapGet? m.agents sid with
        | none => (none, m)
        | some agent =>
            (some (mergedAgent agent resources),
             { m with agents := mapSet m.agents sid (mergedAgent agent resources) })

/-- `Math.round(x)` on exact rationals: floor of `x + 1/2` (JavaScript rounds
half toward positive infinity). -/
def jsRound (q : ℚ) : ℚ := (⌊q + 1 / 2⌋ : ℤ)

/-- `Math.round(score * 10) / 10`: round to one decimal. -/
def roundTenth (q : ℚ) : ℚ := jsRound (q * 10) / 10

/-- The weighted raw score of `getLeaderboard`: actions×1 + tasks×6 +
lines×0.05 + (ms/60000)×2, with the literal `0.05` as the exact `1/20`. -/
def rawScore (s : Stats) : ℚ :=
  s.actionsCompleted * 1 + s.tasksCompleted * 6 + s.linesWritten * (1 / 20) +
    s.timeSpentCodingMs / 60000 * 2

/-- The rounded leaderboard score of one agent. -/
def agentScore (s : Stats) : ℚ := roundTenth (rawScore s)

/-- One leaderboard row as built in the `map` of `getLeaderboard`. -/
structure LeaderboardEntry where
  agentId : String
  number : Nat
  name : String
  displayName : String
  avatar : String
  color : String
  stats : Stats
  score : ℚ
deriving DecidableEq, Repr

/-- The `map` step of `getLeaderboard`. -/
def toEntry (a : Agent) : LeaderboardEntry :=
  { agentId := a.id, number := a.number, name := a.name,
    displayName := a.displayName, avatar := a.avatar, color := a.color,
    stats := a.stats, score := agentScore a.stats }

/-- `getLeaderboard(limit)`: map to scored rows, stable sort descending by
score (`(a, b) => b.score - a.score`), truncate with `slice(0, limit)`. -/
def AgentManager.getLeaderboard (m : AgentManager) (limit : Nat) :
    List LeaderboardEntry :=
  (stableSortDesc LeaderboardEntry.score (m.getAllAgents.map toEntry)).take limit

end Hive

namespace Hive

/-- C8: the leaderboard score is the pure function
`roundTenth (actions×1 + tasks×6 + lines×(1/20) + (ms/60000)×2)` of the stats
(the given example stats score exactly 29); the returned list is the stable
descending sort of the rows truncated to `limit`: the output is the `limit`
prefix of a descending-sorted permutation of all rows in which rows of equal
score keep the original agent-iteration order, every row cut off by the
truncation scores no more than every returned row (the output is the top
`limit`), and every returned row is the scored row of some agent. -/
theorem getLeaderboard_spec (m : AgentManager) (limit : Nat) :
    agentScore ⟨10, 2, 100, 60000, 0⟩ = 29 ∧
    (m.getLeaderboard limit).Pairwise (fun a b => b.score ≤ a.score) ∧
    (∃ full, full.Pairwise (fun a b => b.score ≤ a.score) ∧
      List.Perm full (m.getAllAgents.map toEntry) ∧
      (∀ s, full.filter (fun x => decide (x.score = s)) =
        (m.getAllAgents.map toEntry).filter (fun x => decide (x.score = s))) ∧
      m.getLeaderboard limit = full.take limit ∧
      (∀ x ∈ m.getLeaderboard limit, ∀ y ∈ full.drop limit, y.score ≤ x.score)) ∧
    (∀ x ∈ m.getLeaderboard limit, ∃ a, a ∈ m.getAllAgents ∧ x = toEntry a) := by
  refine ⟨?_, ?_, ?_, ?_⟩
  · have hraw : rawScore ⟨10, 2, 100, 60000, 0⟩ = 29 := by
      norm_num [rawScore]
    unfold agentScore roundTenth jsRound
    rw [hraw]
    norm_num
  · exact List.Pairwise.sublist (List.take_sublist _ _)
      (pairwise_stableSortDesc LeaderboardEntry.score _)
  · refine ⟨stableSortDesc LeaderboardEntry.score (m.getAllAgents.map toEntry),
      pairwise_stableSortDesc _ _, perm_stableSortDesc _ _,
      fun s => filter_stableSortDesc LeaderboardEntry.score s _, rfl, ?_⟩
    intro x hx y hy
    have hp : ((stableSortDesc LeaderboardEntry.score (m.getAllAgents.map toEntry)).take limit ++
        (stableSortDesc LeaderboardEntry.score (m.getAllAgents.map toEntry)).drop limit).Pairwise
          (fun a b => b.score ≤ a.score) := by
      rw [List.take_append_drop]
      exact pairwise_stableSortDesc _ _
    exact (List.pairwise_append.mp hp).2.2 x hx y hy
  · intro x hx
    have hx1 : x ∈ stableSortDesc LeaderboardEntry.score (m.getAllAgents.map toEntry) :=
      List.mem_of_mem_take hx
    have hx2 : x ∈ m.getAllAgents.map toEntry :=
      (perm_stableSortDesc _ _).mem_iff.mp hx1
    obtain ⟨a, ha, rfl⟩ := List.mem_map.mp hx2
    exact ⟨a, ha, rfl⟩

/-- Demo agent (socket `"s1"`, id `"id1"`), no resources declared, zero stats. -/
def demoAgent : Agent :=
  { id := "id1", socketId := "s1", number := 1, name := "n",
    displayName := "Agent 1", capabilities := ["code"], avatar := "x",
    color := "c", status := "online", currentProject := none, joinedAt := 0,
    lastSeen := 0, lastCodingAt := none,
    resources := ⟨none, none, none, none⟩, stats := ⟨0, 0, 0, 0, 0⟩ }

/-- Manager holding the demo agent. -/
def demoManager : AgentManager := ⟨[("s1", demoAgent)], [("id1", "s1")]⟩

/-- Witness for `getLeaderboard_spec`: the spec example — actions 10, tasks 2,
lines 100, one minute of coding — scores exactly 29. -/
theorem getLeaderboard_spec_witness : agentScore ⟨10, 2, 100, 60000, 0⟩ = 29 :=
  (getLeaderboard_spec demoManager 10).1

end Hive

namespace Hive

/-- C10: `updateResources` on an unknown agent id returns null and changes
nothing; on a known agent it merges resources field by field — a null/absent
field of the update keeps the old declared value, a present field overwrites —
while every other agent field (stats, status, identity, timestamps, …) and
every other map entry is untouched, and `agentsById` is unchanged. -/
theorem updateResources_merge (m : AgentManager) (agentId : String) (upd : Resources) :
    (m.getAgentById agentId = none → m.updateResources agentId upd = (none, m)) ∧
    (∀ sid a, mapGet? m.agentsById agentId = some sid → sid ≠ "" →
        mapGet? m.agents sid = some a →
        m.updateResources agentId upd =
          (some (mergedAgent a upd),
           { m with agents := mapSet m.agents sid (mergedAgent a upd) }) ∧
        (upd.cpuCores = none →
            (mergedAgent a upd).resources.cpuCores = a.resources.cpuCores) ∧
        (∀ v, upd.cpuCores = some v → (mergedAgent a upd).resources.cpuCores = some v) ∧
        (upd.gpuVramGb = none →
            (mergedAgent a upd).resources.gpuVramGb = a.resources.gpuVramGb) ∧
        (∀ v, upd.gpuVramGb = some v → (mergedAgent a upd).resources.gpuVramGb = some v) ∧
        (upd.ramGb = none → (mergedAgent a upd).resources.ramGb = a.resources.ramGb) ∧
        (∀ v, upd.ramGb = some v → (mergedAgent a upd).resources.ramGb = some v) ∧
        (upd.storageGb = none →
            (mergedAgent a upd).resources.storageGb = a.resources.storageGb) ∧
        (∀ v, upd.storageGb = some v → (mergedAgent a upd).resources.storageGb = some v) ∧
        (mergedAgent a upd).stats = a.stats ∧
        (mergedAgent a upd).status = a.status ∧
        (mergedAgent a upd).id = a.id ∧
        (mergedAgent a upd).socketId = a.socketId ∧
        (mergedAgent a upd).number = a.number ∧
        (mergedAgent a upd).name = a.name ∧
        (mergedAgent a upd).displayName = a.displayName ∧
        (mergedAgent a upd).capabilities = a.capabilities ∧
        (mergedAgent a upd).avatar = a.avatar ∧
        (mergedAgent a upd).color = a.color ∧
        (mergedAgent a upd).currentProject = a.currentProject ∧
        (mergedAgent a upd).joinedAt = a.joinedAt ∧
        (mergedAgent a upd).lastSeen = a.lastSeen ∧
        (mergedAgent a upd).lastCodingAt = a.lastCodingAt ∧
        (m.updateResources agentId upd).2.agentsById = m.agentsById ∧
        (∀ sid2, sid ≠ sid2 →
            mapGet? (m.updateResources agentId upd).2.agents sid2 =
              mapGet? m.agents sid2)) := by
  constructor
  · intro hn
    unfold AgentManager.getAgentById at hn
    cases hs : mapGet? m.agentsById agentId with
    | none => simp [AgentManager.updateResources, hs]
    | some sid =>
        rw [hs] at hn
        by_cases hsid : sid = ""
        · simp [AgentManager.updateResources, hs, hsid]
        · simp only [if_neg hsid] at hn
          simp [AgentManager.updateResources, hs, hsid, hn]
  · intro sid a hs hsid ha
    have heq : m.updateResources agentId upd =
        (some (mergedAgent a upd),
         { m with agents := mapSet m.agents sid (mergedAgent a upd) }) := by
      simp [AgentManager.updateResources, hs, hsid, ha]
    refine ⟨heq, ?_, ?_, ?_, ?_, ?_, ?_, ?_, ?_, rfl, rfl, rfl, rfl, rfl, rfl, rfl,
      rfl, rfl, rfl, rfl, rfl, rfl, rfl, ?_, ?_⟩
    · intro h
      simp [mergedAgent, mergeResources, nullish, h]
    · intro v h
      simp [mergedAgent, mergeResources, nullish, h]
    · intro h
      simp [mergedAgent, mergeResources, nullish, h]
    · intro v h
      simp [mergedAgent, mergeResources, nullish, h]
    · intro h
      simp [mergedAgent, mergeResources, nullish, h]
    · intro v h
      simp [mergedAgent, mergeResources, nullish, h]
    · intro h
      simp [mergedAgent, mergeResources, nullish, h]
    · intro v h
      simp [mergedAgent, mergeResources, nullish, h]
    · rw [heq]
    · intro sid2 hne
      rw [heq]
      exact mapGet?_set_ne _ _ _ _ hne

/-- Witness for `updateResources_merge`: updating only `cpuCores` of the demo
agent. -/
theorem updateResources_merge_witness :
    demoManager.updateResources "id1" ⟨some 8, none, none, none⟩ =
      (some (mergedAgent demoAgent ⟨some 8, none, none, none⟩),
       { demoManager with
         agents := mapSet demoManager.agents "s1"
           (mergedAgent demoAgent ⟨some 8, none, none, none⟩) }) :=
  ((updateResources_merge demoManager "id1" ⟨some 8, none, none, none⟩).2 "s1"
    demoAgent rfl (by decide) rfl).1

end Hive
